import Mathlib

/-!
Shallow embedding of the Timeline_Reports ETL pipeline
(`src/utils/utils.py`, `src/config/timeline.py`, `src/config/reports.py`).

Dataframes are modelled as Lean lists of rows (or, for `rename_columns`,
as a list of named columns), with `Option` standing for nullable (NaN)
cells.  pandas comparisons on object columns treat a null operand as a
failed comparison (the element result is `False` except for `!=`), which
is modelled by the `Option`-aware comparison helpers below.
-/

namespace TimelineReports

/-- A single dataframe column: its name and its (string-typed) cells.
Reports are loaded with `dtype=str`, so cells are strings. -/
structure Column where
  name : String
  cells : List String
deriving DecidableEq

/-- A dataframe as seen by `utils.rename_columns`: a list of named columns. -/
structure Table where
  cols : List Column
deriving DecidableEq

/-- A value of the JSON config mapping for one report type.  Column entries
are dicts that may or may not carry a `col_name` field; other entries
(`path`, `desired_cols`) are plain strings or lists. -/
inductive ConfigVal where
  | jstr (s : String)
  | jlist (l : List String)
  | jdict (colName : Option String)
deriving DecidableEq

/-- The config mapping for one report type: JSON object = ordered key/value list. -/
abbrev ConfigMap := List (String × ConfigVal)

/-- Keys of a config mapping (`self.config[self.report_type].keys()`). -/
def cfgKeys (cfg : ConfigMap) : List String := cfg.map Prod.fst

/-- One iteration of the loop in `utils.rename_columns`, acting on a single
column name: `df.rename(columns={config_keys[col]["col_name"]: col})` maps
every column whose name equals the entry's `col_name` to the entry's key.
Accessing `config_keys[col]["col_name"]` raises for entries that are not
dicts or lack a `col_name` field; the `except: pass` swallows this, leaving
the name unchanged. -/
def renameStep (e : String × ConfigVal) (n : String) : String :=
  match e with
  | (key, ConfigVal.jdict (some cn)) => if n = cn then key else n
  | _ => n

/-- `utils.rename_columns`: folds the per-entry renames over the dataframe,
in config order.  Each step renames all columns matching that entry's
`col_name`; cells are untouched. -/
def rename_columns (cfg : ConfigMap) (t : Table) : Table :=
  cfg.foldl (fun t e => ⟨t.cols.map (fun c => ⟨renameStep e c.name, c.cells⟩)⟩) t

/-- The cumulative effect of `rename_columns` on one column name: the
per-entry renames folded over the original name, in config order. -/
def applyRenames (cfg : ConfigMap) (n : String) : String :=
  cfg.foldl (fun n e => renameStep e n) n

/-- Strict lexicographic comparison of character lists by code point, as
Python compares strings. -/
def strLtb : List Char → List Char → Bool
  | [], [] => false
  | [], _ :: _ => true
  | _ :: _, [] => false
  | a :: as, b :: bs => if a < b then true else if b < a then false else strLtb as bs

/-- Non-strict lexicographic comparison of character lists by code point. -/
def strLeb : List Char → List Char → Bool
  | [], _ => true
  | _ :: _, [] => false
  | a :: as, b :: bs => if a < b then true else if b < a then false else strLeb as bs

/-- Python string comparison, strict. -/
def pyLt (a b : String) : Bool := strLtb a.data b.data

/-- Python string comparison, non-strict. -/
def pyLe (a b : String) : Bool := strLeb a.data b.data

/-- Insert an element into a list, before the first element it compares
at-or-before: the auxiliary step of the insertion sort. -/
def insertLe {α : Type} (le : α → α → Bool) (x : α) : List α → List α
  | [] => [x]
  | y :: ys => if le x y then x :: y :: ys else y :: insertLe le x ys

/-- Comparison sort modelling sorted / DataFrame.sort_values, as a
structurally recursive insertion sort. -/
def sortByLe {α : Type} (le : α → α → Bool) : List α → List α
  | [] => []
  | x :: xs => insertLe le x (sortByLe le xs)

/-- `utils.get_latest_file_path`, with the glob results passed in as a list:
`sorted(glob.glob(path), reverse=True)` then the first element, or `None`
when no file matches. -/
def get_latest_file_path (files : List String) : Option String :=
  match sortByLe (fun a b => pyLe b a) files with
  | [] => none
  | f :: _ => some f

/-- `Report._req_col_check`: walks the required columns and raises, naming
the first one that is not among the keys of the config mapping for this
report type.  Note it inspects the config keys, not the loaded table. -/
def req_col_check (cfg : ConfigMap) (rt : String) : List String → Except String Unit
  | [] => Except.ok ()
  | c :: cs =>
      if c ∈ cfgKeys cfg then req_col_check cfg rt cs
      else Except.error ("required column " ++ c ++ " missing from " ++ rt)

/-- The required columns demanded by `Report.__init__`. -/
def reqCols : List String := ["Student_ID", "Date", "path", "Email"]

/-- `Report.__init__` after `_load_file`: `loaded` is `none` when loading
failed (`_load_file` catches every exception and returns `None`).  The
required-column check runs on the config, then the content is renamed per
config.  When content is `None`, every rename attempt inside
`rename_columns` raises and is swallowed, so the content stays `None`. -/
def reportInit (cfg : ConfigMap) (rt : String) (loaded : Option Table) :
    Except String (Option Table) :=
  match req_col_check cfg rt reqCols with
  | Except.error e => Except.error e
  | Except.ok _ => Except.ok (loaded.map (rename_columns cfg))

/-- `DataFrame.drop_duplicates(keep="first")` keyed by `key`: keeps the
first row bearing each key value, in order; `seen` accumulates the key
values already kept. -/
def drop_duplicates_by {α β : Type} [DecidableEq β] (key : α → β) :
    List α → List β → List α
  | [], _ => []
  | x :: xs, seen =>
      if key x ∈ seen then drop_duplicates_by key xs seen
      else x :: drop_duplicates_by key xs (key x :: seen)

/-- A calendar date, standing for a pandas `datetime64` value. -/
structure EDate where
  year : Nat
  month : Nat
  day : Nat
deriving DecidableEq

/-- Zero-pad a natural to two digits, as `%m` and `%d` render. -/
def pad2 (n : Nat) : String := if n < 10 then "0" ++ toString n else toString n

/-- Zero-pad a year to four digits, as `%Y` renders. -/
def pad4 (n : Nat) : String :=
  if n < 10 then "000" ++ toString n
  else if n < 100 then "00" ++ toString n
  else if n < 1000 then "0" ++ toString n
  else toString n

/-- `Series.dt.strftime(&quot;%Y%m%d&quot;)` on a date. -/
def fmtYmd (d : EDate) : String := pad4 d.year ++ pad2 d.month ++ pad2 d.day

/-- The `months_2key_dict` of `Timeline.process_timeline`:
`dict(zip(range(1, 13), [(&quot;10&quot;, &quot;Winter&quot;)]*4 + [(&quot;30&quot;, &quot;Summer&quot;)]*4 + [(&quot;40&quot;, &quot;Fall&quot;)]*4))`. -/
def months_2key : List (Nat × (String × String)) :=
  (List.range' 1 12).zip
    (List.replicate 4 ("10", "Winter") ++ List.replicate 4 ("30", "Summer") ++
      List.replicate 4 ("40", "Fall"))

/-- `timeline[&quot;Key&quot;] = timeline[&quot;Month&quot;].map({key: value[0] ...})`:
the semester key of a month, `none` outside 1..12. -/
def monthKey (m : Nat) : Option String := (months_2key.lookup m).map Prod.fst

/-- A raw enrollment row, as loaded (`dtype=str`) and renamed per
`config[&quot;Enrollment&quot;]`: the columns the pipeline reads. -/
structure EnrRaw where
  studentId : String
  termCodeKey : String
  collegeYear : String
  collegeProgram : String
  collegeMajor : String
deriving DecidableEq

/-- A processed enrollment row as produced by `Timeline.add_enrollment`:
`Year` is `term_code_key[:4]`, `Term Code` the normalized last two
characters of `term_code_key`. -/
structure EnrRow where
  studentId : String
  year : String
  termCode : String
  collegeYear : String
  termCodeKey : String
deriving DecidableEq

/-- The `seasonal_mapping` replace of `Timeline.add_enrollment`:
`Series.replace({&quot;35&quot;: &quot;40&quot;, &quot;5&quot;: &quot;10&quot;, &quot;25&quot;: &quot;30&quot;})` substitutes
exact cell values and leaves others alone. -/
def seasonalMapping (tc : String) : String :=
  if tc = "35" then "40" else if tc = "5" then "10" else if tc = "25" then "30" else tc

/-- Python `s[-2:]`: the last two characters (the whole string when shorter). -/
def pyLast2 (s : String) : String := s.drop (s.length - 2)

/-- The college years kept by `Timeline.add_enrollment`. -/
def collegeYears : List String := ["Freshman", "Sophomore", "Junior", "Senior"]

/-- The allowed normalized term codes of `Timeline.add_enrollment`. -/
def allowedTermCodes : List String := ["40", "10", "30"]

/-- `Timeline.add_enrollment` with `process=True`: drop duplicate rows
(keep first), keep the four college years, derive `Year` and `Term Code`
from `term_code_key`, normalize seasonal codes and keep only rows whose
`Term Code` is one of `40`, `10`, `30`. -/
def add_enrollment (raw : List EnrRaw) : List EnrRow :=
  let d := drop_duplicates_by id raw []
  let d := d.filter (fun r => r.collegeYear ∈ collegeYears)
  (d.map (fun r =>
      ({ studentId := r.studentId
         year := r.termCodeKey.take 4
         termCode := seasonalMapping (pyLast2 r.termCodeKey)
         collegeYear := r.collegeYear
         termCodeKey := r.termCodeKey } : EnrRow))).filter
    (fun r => r.termCode ∈ allowedTermCodes)

/-- An engagement-report row after `HSReport` processing and the column
selection of `Timeline.create_timeline`
(`df.loc[:, [&quot;Email&quot;, &quot;Student_ID&quot;, &quot;Date&quot;, &quot;Event_Type&quot;]]`).
`Date` was parsed with `errors=&quot;coerce&quot;`, so it is nullable. -/
structure EngRow where
  email : Option String
  studentId : Option String
  date : Option EDate
  eventType : Option String
deriving DecidableEq

/-- `Timeline.create_timeline`: `pd.concat` of all added reports, in order. -/
def create_timeline (contents : List (List EngRow)) : List EngRow :=
  contents.foldl (fun df c => df ++ c) []

/-- `timeline[&quot;Year&quot;] = timeline[&quot;Date&quot;].dt.year.astype(&quot;str&quot;)`. -/
def engYear (t : EngRow) : Option String := t.date.map (fun d => toString d.year)

/-- `timeline[&quot;Key&quot;]`: the semester key of the event month. -/
def engKey (t : EngRow) : Option String := t.date.bind (fun d => monthKey d.month)

/-- Equality of the merge keys of `Timeline.process_timeline`:
`left_on=[&quot;Student_ID&quot;, &quot;Year&quot;, &quot;Term Code&quot;]`,
`right_on=[&quot;Student_ID&quot;, &quot;Year&quot;, &quot;Key&quot;]`.  Null keys never match. -/
def matchKeys (e : EnrRow) (t : EngRow) : Bool :=
  decide (t.studentId = some e.studentId) && decide (engYear t = some e.year) &&
    decide (engKey t = some e.termCode)

/-- `pd.merge(self.enrollment, timeline, how=&quot;left&quot;, ...)`: every
enrollment row is paired with each matching timeline row, or with an
all-null right side when none matches. -/
def mergeLeft (enr : List EnrRow) (tl : List EngRow) : List (EnrRow × Option EngRow) :=
  enr.flatMap (fun e =>
    let ms := tl.filter (fun t => matchKeys e t)
    if ms.isEmpty then [(e, none)] else ms.map (fun t => (e, some t)))

/-- A processed-timeline row after `timeline.astype(str)`: every column is
a string.  The intermediate `Month` helper column is omitted (its string
rendering depends on the pandas column dtype and no claim concerns it). -/
structure ProcRow where
  studentId : String
  year : String
  termCode : String
  collegeYear : String
  termCodeKey : String
  email : String
  date : String
  eventType : String
  key : String
deriving DecidableEq

/-- `astype(str)` of a nullable string cell: NaN renders as `nan`. -/
def optStr (o : Option String) : String := o.getD "nan"

/-- Stringification of one merged row, as `astype(str)` leaves it after
`Date` was rendered with `strftime(&quot;%Y%m%d&quot;)`.  Rows reaching this
point matched on the merge keys, so the date is present. -/
def stringifyRow (p : EnrRow × EngRow) : ProcRow :=
  { studentId := p.1.studentId
    year := p.1.year
    termCode := p.1.termCode
    collegeYear := p.1.collegeYear
    termCodeKey := p.1.termCodeKey
    email := optStr p.2.email
    date := (p.2.date.map fmtYmd).getD "NaT"
    eventType := optStr p.2.eventType
    key := optStr (engKey p.2) }

/-- Lexicographic comparison of dates, as `datetime64` values order. -/
def dateLe (a b : EDate) : Bool :=
  decide (a.year < b.year) ||
    (decide (a.year = b.year) &&
      (decide (a.month < b.month) ||
        (decide (a.month = b.month) && decide (a.day ≤ b.day))))

/-- Comparator of `timeline.sort_values([&quot;Student_ID&quot;, &quot;Date&quot;], ascending=True)`.
All rows reaching the sort carry a date (the `Event_Type` filter removed
the unmatched rows, and matched rows have dates); `NaT` ordering is
immaterial here and nulls are ordered last as pandas does. -/
def procLe (p q : EnrRow × EngRow) : Bool :=
  pyLt p.1.studentId q.1.studentId ||
    (decide (p.1.studentId = q.1.studentId) &&
      match p.2.date, q.2.date with
      | some a, some b => dateLe a b
      | some _, none => true
      | none, none => true
      | none, some _ => false)

/-- `Timeline.process_timeline`: derive `Year` and `Key` from the event
date, drop rows with a null `Student_ID`, left-merge the processed
enrollment with the timeline on student and term, keep only rows whose
`Event_Type` is non-null (i.e. rows with an enrollment match carrying an
event), sort by student and date, render dates and stringify. -/
def process_timeline (enr : List EnrRow) (tl : List EngRow) : List ProcRow :=
  let tl1 := tl.filter (fun t => t.studentId.isSome)
  let merged := (mergeLeft enr tl1).filterMap (fun p =>
    match p with
    | (e, some t) => if t.eventType.isSome then some (e, t) else none
    | (_, none) => none)
  (sortByLe procLe merged).map stringifyRow

/-- A row of the loaded CLDC referral tracker, restricted to the columns
`CLDCReport.generate_reports` reads.  The google sheet carries no
Student_ID column of its own (the merged frame has a single plain
`Student_ID` column, from the engagement side). -/
structure CLDCRow where
  email : String
  date : String
  completed : String
deriving DecidableEq

/-- `cldc_df[cldc_df[&quot;Completed&quot;] == &quot;true&quot;]`. -/
def completedRows (df : List CLDCRow) : List CLDCRow :=
  df.filter (fun r => r.completed = "true")

/-- Comparator of `sort_values([&quot;Email&quot;, &quot;Date&quot;], ascending=False)`:
descending lexicographically by email, then by the raw date string. -/
def cldcSortLe (r s : CLDCRow) : Bool :=
  pyLt s.email r.email || (decide (r.email = s.email) && pyLe s.date r.date)

/-- Lines 159-167 of `CLDCReport.generate_reports`: keep completed
appointments, sort descending by email and date, and
`drop_duplicates(subset=[&quot;Email&quot;], keep=&quot;first&quot;)`. -/
def dedupAppointments (df : List CLDCRow) : List CLDCRow :=
  drop_duplicates_by (fun r => r.email) (sortByLe cldcSortLe (completedRows df)) []

/-- Python `s[a:b]` on non-negative bounds. -/
def pySlice (s : String) (a b : Nat) : String :=
  ((s.toList.drop a).take (b - a)).asString

/-- Month abbreviations as `%b` parses them. -/
def month_num : List (String × String) :=
  [("Jan", "01"), ("Feb", "02"), ("Mar", "03"), ("Apr", "04"), ("May", "05"),
   ("Jun", "06"), ("Jul", "07"), ("Aug", "08"), ("Sep", "09"), ("Oct", "10"),
   ("Nov", "11"), ("Dec", "12")]

/-- Date processing of the deduplicated CLDC frame: take `Date.str[4:15]`
(the `%b %d %Y` part of the sheet timestamp), parse it and render it as
`%Y%m%d`.  An unparseable month would make `pd.to_datetime` raise in the
source; no claim concerns that case and it is rendered `NaT` here. -/
def proc_appt_date (s : String) : String :=
  let t := pySlice s 4 15
  match month_num.lookup (pySlice t 0 3) with
  | some m => pySlice t 7 11 ++ m ++ pySlice t 4 6
  | none => "NaT"

/-- A processed appointment row: one per completed email, dated `%Y%m%d`. -/
structure ApptRow where
  email : String
  dateAppt : String
deriving DecidableEq

/-- A processed-timeline row as `tmp_engagement` selects it:
`timeline.loc[:, [&quot;Email&quot;, &quot;Student_ID&quot;, &quot;Event_Type&quot;, &quot;Date&quot;]]`. -/
structure TLRow where
  email : String
  studentId : String
  eventType : String
  date : String
deriving DecidableEq

/-- The appointment side fed into the CLDC merge. -/
def cldc_appts (df : List CLDCRow) : List ApptRow :=
  (dedupAppointments df).map (fun r => ⟨r.email, proc_appt_date r.date⟩)

/-- `all_codes = set(cldc_df[&quot;Email&quot;])` of the completed rows, kept as a
duplicate-free list (membership is all the code uses). -/
def all_codes (df : List CLDCRow) : List String :=
  drop_duplicates_by id ((completedRows df).map (fun r => r.email)) []

/-- A row of `pd.merge(cldc_df, tmp_engagement, on=&quot;Email&quot;, how=&quot;left&quot;,
suffixes=(&quot;_appt&quot;, &quot;_eng&quot;))`: engagement columns are null when the
email found no engagement row. -/
structure CLDCMergedRow where
  email : String
  dateAppt : String
  studentId : Option String
  eventType : Option String
  dateEng : Option String
deriving DecidableEq

/-- The CLDC left merge on `Email`. -/
def cldc_merge (appts : List ApptRow) (tl : List TLRow) : List CLDCMergedRow :=
  appts.flatMap (fun a =>
    let ms := tl.filter (fun t => t.email = a.email)
    if ms.isEmpty then [⟨a.email, a.dateAppt, none, none, none⟩]
    else ms.map (fun t => ⟨a.email, a.dateAppt, some t.studentId, some t.eventType, some t.date⟩))

/-- Strict `<` against a nullable right operand: a null operand makes the
pandas element comparison `False`, so such rows are dropped by the filter. -/
def dateLtOpt (a : String) : Option String → Bool
  | some d => pyLt a d
  | none => false

/-- Non-strict `≤` against a nullable right operand, same null convention. -/
def dateLeOpt (a : String) : Option String → Bool
  | some d => pyLe a d
  | none => false

/-- Line 191 of `CLDCReport.generate_reports`:
`df[df[&quot;Date_appt&quot;] < df[&quot;Date_eng&quot;]]`. -/
def cldc_time_filter (df : List CLDCMergedRow) : List CLDCMergedRow :=
  df.filter (fun r => dateLtOpt r.dateAppt r.dateEng)

/-- Lines 195-197: restrict to the desired columns and
`drop_duplicates(subset=[&quot;Student_ID&quot;, &quot;Event_Type&quot;, &quot;Date Engagement&quot;])`. -/
def cldc_df_tl (df : List CLDCRow) (tl : List TLRow) : List CLDCMergedRow :=
  drop_duplicates_by (fun r => (r.studentId, r.eventType, r.dateEng))
    (cldc_time_filter (cldc_merge (cldc_appts df) tl)) []

/-- A row of the CLDC aggregate: the pivot index (email, student) and the
per-event-type counts, as a function of the event-type column name. -/
structure AggRow where
  email : String
  studentId : String
  cnt : String → Nat

/-- One pivot cell: `aggfunc=len` counts the rows of the group, and
`fill_value=0` renders the empty group as 0. -/
def pivot_count (df : List CLDCMergedRow) (e s ev : String) : Nat :=
  (df.filter (fun r =>
    decide (r.email = e) && decide (r.studentId = some s) &&
      decide (r.eventType = some ev))).length

/-- Comparator sorting the pivot index ascending by (email, student), as
`pivot_table` sorts its index. -/
def pairLe (p q : String × String) : Bool :=
  pyLt p.1 q.1 || (decide (p.1 = q.1) && pyLe p.2 q.2)

/-- The index of `pd.pivot_table(df_tl[[&quot;Email&quot;, &quot;Student_ID&quot;, &quot;Event_Type&quot;]],
index=[&quot;Email&quot;, &quot;Student_ID&quot;], ...)`: the distinct (email, student)
pairs, rows with a null student being dropped by the groupby. -/
def cldc_pivot_keys (df : List CLDCMergedRow) : List (String × String) :=
  sortByLe pairLe (drop_duplicates_by id
    (df.filterMap (fun r => r.studentId.map (fun s => (r.email, s)))) [])

/-- The CLDC pivot: one aggregate row per index pair, counting qualifying
engagement rows per event type. -/
def cldc_pivot (df : List CLDCMergedRow) : List AggRow :=
  (cldc_pivot_keys df).map (fun p => ⟨p.1, p.2, fun ev => pivot_count df p.1 p.2 ev⟩)

/-- Lines 204-222 of `CLDCReport.generate_reports`: the pivot, then the
emails of `all_codes` absent from the pivot appended as rows whose cells
were filled with 0 (`tmp.fillna(value=0)` also puts 0 in `Student_ID`). -/
def cldc_aggregate (df : List CLDCRow) (tl : List TLRow) : List AggRow :=
  let piv := cldc_pivot (cldc_df_tl df tl)
  let missing := (all_codes df).filter (fun e => decide (e ∉ piv.map AggRow.email))
  piv ++ missing.map (fun e => ⟨e, "0", fun _ => 0⟩)

/-- A row of the single-presentation COM1100 student group
(`com1100_no_dup[[&quot;Date&quot;, &quot;Student_ID&quot;, &quot;college_program&quot;,
&quot;college_major&quot;, &quot;term_code_key&quot;]]`). -/
structure ComStuRow where
  datePrez : String
  studentId : String
  collegeProgram : String
  collegeMajor : String
  termCodeKey : String
deriving DecidableEq

/-- A timeline row as `utils.generate_com1100_report` selects it:
`timeline[[&quot;Student_ID&quot;, &quot;Event_Type&quot;, &quot;term_code_key&quot;, &quot;Date&quot;]]`. -/
structure ComTLRow where
  studentId : String
  eventType : String
  termCodeKey : String
  date : String
deriving DecidableEq

/-- A row of the COM1100 merge on `Student_ID` with suffixes
`(&quot;_prez&quot;, &quot;_eng&quot;)`; engagement columns nullable (left merge). -/
structure ComMergedRow where
  datePrez : String
  studentId : String
  collegeProgram : String
  collegeMajor : String
  termCodeKeyPrez : String
  eventType : Option String
  termCodeKeyEng : Option String
  dateEng : Option String
deriving DecidableEq

/-- The COM1100 left merge of the student group with the timeline. -/
def com1100_merge (grp : List ComStuRow) (tl : List ComTLRow) : List ComMergedRow :=
  grp.flatMap (fun g =>
    let ms := tl.filter (fun t => t.studentId = g.studentId)
    if ms.isEmpty then
      [⟨g.datePrez, g.studentId, g.collegeProgram, g.collegeMajor, g.termCodeKey,
        none, none, none⟩]
    else ms.map (fun t =>
      ⟨g.datePrez, g.studentId, g.collegeProgram, g.collegeMajor, g.termCodeKey,
        some t.eventType, some t.termCodeKey, some t.date⟩))

/-- Lines 77-80 of `utils.generate_com1100_report`:
`com1100_timelines[com1100_timelines[&quot;Date_prez&quot;] <= com1100_timelines[&quot;Date_eng&quot;]]`. -/
def com1100_time_filter (df : List ComMergedRow) : List ComMergedRow :=
  df.filter (fun r => dateLeOpt r.datePrez r.dateEng)

/-- An FDS (outcomes survey) row as the merge selects it:
`fds[[&quot;Student_ID&quot;, &quot;Date&quot;]]`, the response date a datetime. -/
structure FDSRow where
  studentId : String
  dateFds : EDate
deriving DecidableEq

/-- A processed-timeline row as the FDS merge consumes it. -/
structure FDSTLRow where
  studentId : String
  eventType : String
  collegeYear : String
  date : String
deriving DecidableEq

/-- A row of `pd.merge(fds[[&quot;Student_ID&quot;, &quot;Date&quot;]], timeline, how=&quot;left&quot;,
on=[&quot;Student_ID&quot;], suffixes=(&quot;_fds&quot;, &quot;_tl&quot;))`. -/
structure FDSMergedRow where
  studentId : String
  dateFds : EDate
  eventType : Option String
  collegeYear : Option String
  dateTl : Option String
deriving DecidableEq

/-- The FDS left merge on `Student_ID`. -/
def fds_merge (fds : List FDSRow) (tl : List FDSTLRow) : List FDSMergedRow :=
  fds.flatMap (fun f =>
    let ms := tl.filter (fun t => t.studentId = f.studentId)
    if ms.isEmpty then [⟨f.studentId, f.dateFds, none, none, none⟩]
    else ms.map (fun t => ⟨f.studentId, f.dateFds, some t.eventType, some t.collegeYear, some t.date⟩))

/-- Line 471 of `FDSReport.generate_reports`:
`timeline_targs.loc[timeline_targs[&quot;Date_tl&quot;] < timeline_targs[&quot;Date_fds&quot;], :]`.
Timeline dates are `%Y%m%d` strings and the FDS response date a datetime;
the comparison is modelled on the `%Y%m%d` rendering of the latter, which
orders exactly as the dates do. -/
def fds_time_filter (df : List FDSMergedRow) : List FDSMergedRow :=
  df.filter (fun r =>
    match r.dateTl with
    | some d => pyLt d (fmtYmd r.dateFds)
    | none => false)

/-- `DataFrame.melt(id_vars, value_vars, var_name=&quot;Event_Type&quot;,
value_name=&quot;Count&quot;)`: one block of rows per value column, each block
carrying the id columns, that column name and its cells, blocks stacked in
`value_vars` order. -/
def melt {α β γ : Type} (idsOf : α → β) (cntOf : α → String → γ)
    (valueVars : List String) (df : List α) : List (β × String × γ) :=
  valueVars.flatMap (fun v => df.map (fun r => (idsOf r, v, cntOf r v)))

/-- The five event-type columns both melts enumerate. -/
def event_cols : List String :=
  ["Applications", "Appointments", "Career_Fairs", "Events", "Logins"]

/-- Lines 230-232 of `CLDCReport.generate_reports`:
`df_agg.melt(id_vars=[&quot;Student_ID&quot;, &quot;Email&quot;], value_vars=event_cols, ...)`. -/
def cldc_melt (agg : List AggRow) : List ((String × String) × String × Nat) :=
  melt (fun r => (r.studentId, r.email)) (fun r v => r.cnt v) event_cols agg

/-- A row of the COM1100 aggregate (pivot output): its four-column index
and the per-event-type counts. -/
structure ComAggRow where
  studentId : String
  collegeProgram : String
  collegeMajor : String
  termCodeKey : String
  cnt : String → Nat

/-- Lines 89-91 of `utils.generate_com1100_report`: the melt of the
COM1100 aggregate over the five event-type columns. -/
def com1100_melt (agg : List ComAggRow) :
    List ((String × String × String × String) × String × Nat) :=
  melt (fun r => (r.studentId, r.collegeProgram, r.collegeMajor, r.termCodeKey))
    (fun r v => r.cnt v) event_cols agg

/-! Concrete sample data used to evaluate the theorems on closed inputs. -/

/-- A processed enrollment row: student S1 enrolled Winter 2024. -/
def enr1 : EnrRow := ⟨"S1", "2024", "10", "Freshman", "202410"⟩

/-- An engagement row of S1 in March 2024 (semester key 10). -/
def eng1 : EngRow := ⟨some "jd@oakland.edu", some "S1", some ⟨2024, 3, 5⟩, some "Logins"⟩

/-- A raw enrollment row whose term code key ends in the seasonal code 35. -/
def raw1 : EnrRaw := ⟨"S1", "202235", "Freshman", "CAS", "Biology"⟩

/-- The processed form of `raw1`: 35 is normalized to 40. -/
def enr2 : EnrRow := ⟨"S1", "2022", "40", "Freshman", "202235"⟩

/-- A processed CLDC appointment. -/
def appt1 : ApptRow := ⟨"jd@oakland.edu", "20240101"⟩

/-- A timeline engagement one day after `appt1`. -/
def tlr1 : TLRow := ⟨"jd@oakland.edu", "S1", "Logins", "20240102"⟩

/-- The merged row of `appt1` and `tlr1`. -/
def m1 : CLDCMergedRow := ⟨"jd@oakland.edu", "20240101", some "S1", some "Logins", some "20240102"⟩

/-- A COM1100 student-group row with a presentation date. -/
def stu1 : ComStuRow := ⟨"20240101", "S1", "CAS", "Biology", "202210"⟩

/-- A timeline engagement on or after the presentation of `stu1`. -/
def ctl1 : ComTLRow := ⟨"S1", "Logins", "202230", "20240102"⟩

/-- The merged row of `stu1` and `ctl1`. -/
def cm1 : ComMergedRow :=
  ⟨"20240101", "S1", "CAS", "Biology", "202210", some "Logins", some "202230", some "20240102"⟩

/-- An FDS response row of May 2024. -/
def fds1 : FDSRow := ⟨"S1", ⟨2024, 5, 1⟩⟩

/-- A timeline engagement before the FDS response of `fds1`. -/
def ftl1 : FDSTLRow := ⟨"S1", "Logins", "Senior", "20240102"⟩

/-- The merged row of `fds1` and `ftl1`. -/
def fm1 : FDSMergedRow := ⟨"S1", ⟨2024, 5, 1⟩, some "Logins", some "Senior", some "20240102"⟩

/-- A CLDC sheet with two completed appointments of one email and one
uncompleted row. -/
def df4 : List CLDCRow :=
  [⟨"a@x", "Mon Jan 01 2024 10:00:00", "true"⟩,
   ⟨"a@x", "Tue Jan 02 2024 11:00:00", "true"⟩,
   ⟨"a@x", "Wed Jan 03 2024 12:00:00", "false"⟩]

/-- A CLDC sheet with one completed appointment and no engagement data. -/
def df5 : List CLDCRow := [⟨"a@x", "Wed Mar 05 2025 10:00:00", "true"⟩]

/-- A CLDC aggregate row with some login engagements. -/
def agg6 : AggRow := ⟨"a@x", "S1", fun ev => if ev = "Logins" then 3 else 0⟩

/-- A COM1100 aggregate row with one career-fair engagement. -/
def cagg6 : ComAggRow := ⟨"S1", "CAS", "Biology", "202310", fun ev => if ev = "Career_Fairs" then 1 else 0⟩

/-- A config mapping holding all four required keys; the loaded table of
`tbl7` lacks most of the corresponding columns. -/
def cfg7 : ConfigMap :=
  [("Student_ID", ConfigVal.jdict (some "ID")),
   ("Date", ConfigVal.jdict (some "Start Date")),
   ("path", ConfigVal.jstr "data/report_*.csv"),
   ("Email", ConfigVal.jdict (some "Email Address"))]

/-- A loaded table with a single column named X. -/
def tbl7 : Table := ⟨[⟨"X", ["1"]⟩]⟩

/-- A config mapping missing the required Date, path and Email keys. -/
def cfg9bad : ConfigMap := [("Student_ID", ConfigVal.jdict none)]

/-- A config chain: entry B renames column A, entry C renames column B. -/
def cfg10 : ConfigMap :=
  [("B", ConfigVal.jdict (some "A")), ("C", ConfigVal.jdict (some "B"))]

/-- A table with a single column named A. -/
def tbl10 : Table := ⟨[⟨"A", ["v1", "v2"]⟩]⟩

/-! Helper lemmas about the embedded operations. -/

theorem strLtb_cons_iff (a b : Char) (as bs : List Char) :
    strLtb (a :: as) (b :: bs) = true ↔ a < b ∨ (a = b ∧ strLtb as bs = true) := by
  simp only [strLtb]
  rcases lt_trichotomy a b with h | h | h
  · simp [h, asymm h]
  · simp [h, lt_irrefl]
  · simp [asymm h, h, ne_of_gt h]

theorem strLeb_cons_iff (a b : Char) (as bs : List Char) :
    strLeb (a :: as) (b :: bs) = true ↔ a < b ∨ (a = b ∧ strLeb as bs = true) := by
  simp only [strLeb]
  rcases lt_trichotomy a b with h | h | h
  · simp [h, asymm h]
  · simp [h, lt_irrefl]
  · simp [asymm h, h, ne_of_gt h]

theorem strLtb_irrefl : ∀ as : List Char, strLtb as as = false
  | [] => rfl
  | a :: as => by
      simp only [strLtb, lt_irrefl, if_false]
      exact strLtb_irrefl as

theorem strLtb_trans : ∀ as bs cs : List Char,
    strLtb as bs = true → strLtb bs cs = true → strLtb as cs = true
  | [], [], _, h1, _ => by simp [strLtb] at h1
  | [], _ :: _, [], _, h2 => by simp [strLtb] at h2
  | [], _ :: _, _ :: _, _, _ => rfl
  | _ :: _, [], _, h1, _ => by simp [strLtb] at h1
  | _ :: _, _ :: _, [], _, h2 => by simp [strLtb] at h2
  | a :: as, b :: bs, c :: cs, h1, h2 => by
      rcases (strLtb_cons_iff a b as bs).1 h1 with h1a | ⟨he1, h1t⟩
      · rcases (strLtb_cons_iff b c bs cs).1 h2 with h2a | ⟨he2, h2t⟩
        · exact (strLtb_cons_iff a c as cs).2 (Or.inl (lt_trans h1a h2a))
        · exact (strLtb_cons_iff a c as cs).2 (Or.inl (he2 ▸ h1a))
      · rcases (strLtb_cons_iff b c bs cs).1 h2 with h2a | ⟨he2, h2t⟩
        · exact (strLtb_cons_iff a c as cs).2 (Or.inl (he1.symm ▸ h2a))
        · exact (strLtb_cons_iff a c as cs).2
            (Or.inr ⟨he1.trans he2, strLtb_trans as bs cs h1t h2t⟩)

theorem strLeb_trans : ∀ as bs cs : List Char,
    strLeb as bs = true → strLeb bs cs = true → strLeb as cs = true
  | [], _, _, _, _ => rfl
  | _ :: _, [], _, h1, _ => by simp [strLeb] at h1
  | _ :: _, _ :: _, [], _, h2 => by simp [strLeb] at h2
  | a :: as, b :: bs, c :: cs, h1, h2 => by
      rcases (strLeb_cons_iff a b as bs).1 h1 with h1a | ⟨he1, h1t⟩
      · rcases (strLeb_cons_iff b c bs cs).1 h2 with h2a | ⟨he2, h2t⟩
        · exact (strLeb_cons_iff a c as cs).2 (Or.inl (lt_trans h1a h2a))
        · exact (strLeb_cons_iff a c as cs).2 (Or.inl (he2 ▸ h1a))
      · rcases (strLeb_cons_iff b c bs cs).1 h2 with h2a | ⟨he2, h2t⟩
        · exact (strLeb_cons_iff a c as cs).2 (Or.inl (he1.symm ▸ h2a))
        · exact (strLeb_cons_iff a c as cs).2
            (Or.inr ⟨he1.trans he2, strLeb_trans as bs cs h1t h2t⟩)

theorem strLeb_total : ∀ as bs : List Char, strLeb as bs = true ∨ strLeb bs as = true
  | [], _ => Or.inl rfl
  | _ :: _, [] => Or.inr rfl
  | a :: as, b :: bs => by
      rcases lt_trichotomy a b with h | h | h
      · exact Or.inl ((strLeb_cons_iff a b as bs).2 (Or.inl h))
      · rcases strLeb_total as bs with ht | ht
        · exact Or.inl ((strLeb_cons_iff a b as bs).2 (Or.inr ⟨h, ht⟩))
        · exact Or.inr ((strLeb_cons_iff b a bs as).2 (Or.inr ⟨h.symm, ht⟩))
      · exact Or.inr ((strLeb_cons_iff b a bs as).2 (Or.inl h))

theorem strLtb_or_eq : ∀ as bs : List Char,
    strLtb as bs = true ∨ strLtb bs as = true ∨ as = bs
  | [], [] => Or.inr (Or.inr rfl)
  | [], _ :: _ => Or.inl rfl
  | _ :: _, [] => Or.inr (Or.inl rfl)
  | a :: as, b :: bs => by
      rcases lt_trichotomy a b with h | h | h
      · exact Or.inl ((strLtb_cons_iff a b as bs).2 (Or.inl h))
      · rcases strLtb_or_eq as bs with ht | ht | ht
        · exact Or.inl ((strLtb_cons_iff a b as bs).2 (Or.inr ⟨h, ht⟩))
        · exact Or.inr (Or.inl ((strLtb_cons_iff b a bs as).2 (Or.inr ⟨h.symm, ht⟩)))
        · exact Or.inr (Or.inr (by rw [h, ht]))
      · exact Or.inr (Or.inl ((strLtb_cons_iff b a bs as).2 (Or.inl h)))

theorem strLeb_refl : ∀ as : List Char, strLeb as as = true
  | [] => rfl
  | a :: as => by
      simp only [strLeb, lt_irrefl, if_false]
      exact strLeb_refl as

theorem pyLt_irrefl (a : String) : pyLt a a = false := strLtb_irrefl a.data

theorem pyLe_refl (a : String) : pyLe a a = true := strLeb_refl a.data

theorem pyLt_trans (a b c : String) :
    pyLt a b = true → pyLt b c = true → pyLt a c = true :=
  strLtb_trans a.data b.data c.data

theorem pyLe_trans (a b c : String) :
    pyLe a b = true → pyLe b c = true → pyLe a c = true :=
  strLeb_trans a.data b.data c.data

theorem pyLe_total (a b : String) : pyLe a b = true ∨ pyLe b a = true :=
  strLeb_total a.data b.data

theorem pyLt_or_eq (a b : String) : pyLt a b = true ∨ pyLt b a = true ∨ a = b := by
  rcases strLtb_or_eq a.data b.data with h | h | h
  · exact Or.inl h
  · exact Or.inr (Or.inl h)
  · exact Or.inr (Or.inr (String.ext h))

theorem mem_insertLe {α : Type} (le : α → α → Bool) (x : α) :
    ∀ (l : List α) (y : α), y ∈ insertLe le x l ↔ y = x ∨ y ∈ l
  | [], y => by simp [insertLe]
  | z :: zs, y => by
      simp only [insertLe]
      by_cases h : le x z
      · simp [h, List.mem_cons]
      · simp only [if_neg h, List.mem_cons, mem_insertLe le x zs y]
        tauto

theorem mem_sortByLe {α : Type} (le : α → α → Bool) :
    ∀ (l : List α) (y : α), y ∈ sortByLe le l ↔ y ∈ l
  | [], y => Iff.rfl
  | x :: xs, y => by
      simp only [sortByLe, mem_insertLe, List.mem_cons, mem_sortByLe le xs y]

theorem pairwise_insertLe {α : Type} (le : α → α → Bool)
    (htrans : ∀ a b c, le a b = true → le b c = true → le a c = true)
    (htotal : ∀ a b, le a b = true ∨ le b a = true) (x : α) :
    ∀ l : List α, l.Pairwise (fun a b => le a b = true) →
      (insertLe le x l).Pairwise (fun a b => le a b = true)
  | [], _ => List.pairwise_singleton _ _
  | z :: zs, hp => by
      rcases List.pairwise_cons.1 hp with ⟨hz, hzs⟩
      simp only [insertLe]
      by_cases h : le x z = true
      · rw [if_pos h]
        refine List.pairwise_cons.2 ⟨?_, hp⟩
        intro y hy
        rcases List.mem_cons.1 hy with rfl | hy1
        · exact h
        · exact htrans x z y h (hz y hy1)
      · rw [if_neg h]
        have hzx : le z x = true := (htotal x z).resolve_left h
        refine List.pairwise_cons.2 ⟨?_, pairwise_insertLe le htrans htotal x zs hzs⟩
        intro y hy
        rcases (mem_insertLe le x zs y).1 hy with rfl | hy1
        · exact hzx
        · exact hz y hy1

theorem pairwise_sortByLe {α : Type} (le : α → α → Bool)
    (htrans : ∀ a b c, le a b = true → le b c = true → le a c = true)
    (htotal : ∀ a b, le a b = true ∨ le b a = true) :
    ∀ l : List α, (sortByLe le l).Pairwise (fun a b => le a b = true)
  | [] => List.Pairwise.nil
  | x :: xs =>
      pairwise_insertLe le htrans htotal x (sortByLe le xs)
        (pairwise_sortByLe le htrans htotal xs)

theorem ddb_mem {α β : Type} [DecidableEq β] (key : α → β) :
    ∀ (l : List α) (seen : List β) (r : α),
      r ∈ drop_duplicates_by key l seen → r ∈ l ∧ key r ∉ seen
  | [], _, r, h => by simp [drop_duplicates_by] at h
  | x :: xs, seen, r, h => by
      by_cases hx : key x ∈ seen
      · simp only [drop_duplicates_by, if_pos hx] at h
        have hr := ddb_mem key xs seen r h
        exact ⟨List.mem_cons_of_mem _ hr.1, hr.2⟩
      · simp only [drop_duplicates_by, if_neg hx, List.mem_cons] at h
        rcases h with h | h
        · subst h; exact ⟨List.mem_cons_self _ _, hx⟩
        · have hr := ddb_mem key xs (key x :: seen) r h
          refine ⟨List.mem_cons_of_mem _ hr.1, fun hc => hr.2 (List.mem_cons_of_mem _ hc)⟩

theorem ddb_covers {α β : Type} [DecidableEq β] (key : α → β) :
    ∀ (l : List α) (seen : List β) (x : α), x ∈ l → key x ∉ seen →
      ∃ y ∈ drop_duplicates_by key l seen, key y = key x
  | [], _, x, hx, _ => by simp at hx
  | a :: l, seen, x, hx, hs => by
      by_cases ha : key a ∈ seen
      · simp only [drop_duplicates_by, if_pos ha]
        rcases List.mem_cons.1 hx with rfl | hx1
        · exact absurd ha hs
        · exact ddb_covers key l seen x hx1 hs
      · simp only [drop_duplicates_by, if_neg ha]
        by_cases hk : key x = key a
        · exact ⟨a, List.mem_cons_self _ _, hk.symm⟩
        · rcases List.mem_cons.1 hx with rfl | hx1
          · exact absurd rfl hk
          · have hs1 : key x ∉ key a :: seen := by
              intro hc
              rcases List.mem_cons.1 hc with hc | hc
              · exact hk hc
              · exact hs hc
            rcases ddb_covers key l (key a :: seen) x hx1 hs1 with ⟨y, hy, hky⟩
            exact ⟨y, List.mem_cons_of_mem _ hy, hky⟩

theorem ddb_filter_nil {α β : Type} [DecidableEq β] (key : α → β) :
    ∀ (l : List α) (seen : List β) (k : β), k ∈ seen →
      (drop_duplicates_by key l seen).filter (fun y => decide (key y = k)) = []
  | [], _, _, _ => by simp [drop_duplicates_by]
  | x :: xs, seen, k, hk => by
      by_cases hx : key x ∈ seen
      · simp only [drop_duplicates_by, if_pos hx]
        exact ddb_filter_nil key xs seen k hk
      · simp only [drop_duplicates_by, if_neg hx, List.filter_cons]
        have hne : ¬ key x = k := fun hc => hx (hc ▸ hk)
        simp only [decide_eq_true_eq, hne, if_false]
        exact ddb_filter_nil key xs (key x :: seen) k (List.mem_cons_of_mem _ hk)

theorem ddb_filter_le_one {α β : Type} [DecidableEq β] (key : α → β) :
    ∀ (l : List α) (seen : List β) (k : β),
      ((drop_duplicates_by key l seen).filter (fun y => decide (key y = k))).length ≤ 1
  | [], _, _ => by simp [drop_duplicates_by]
  | x :: xs, seen, k => by
      by_cases hx : key x ∈ seen
      · simp only [drop_duplicates_by, if_pos hx]
        exact ddb_filter_le_one key xs seen k
      · simp only [drop_duplicates_by, if_neg hx, List.filter_cons]
        by_cases hk : key x = k
        · subst hk
          rw [if_pos (by simp)]
          have h0 := ddb_filter_nil key xs (key x :: seen) (key x) (List.mem_cons_self _ _)
          simp [h0]
        · simp only [decide_eq_true_eq, hk, if_false]
          exact ddb_filter_le_one key xs (key x :: seen) k

theorem ddb_max {α β : Type} [DecidableEq β] (key : α → β) (R : α → α → Bool) :
    ∀ (l : List α), l.Pairwise (fun a b => R a b = true) →
      ∀ (seen : List β) (r : α), r ∈ drop_duplicates_by key l seen →
        ∀ s ∈ l, key s = key r → s = r ∨ R r s = true
  | [], _, _, r, hr => by simp [drop_duplicates_by] at hr
  | x :: xs, hp, seen, r, hr => by
      rcases List.pairwise_cons.1 hp with ⟨hx, hxs⟩
      intro s hs hk
      by_cases hxseen : key x ∈ seen
      · simp only [drop_duplicates_by, if_pos hxseen] at hr
        rcases List.mem_cons.1 hs with rfl | hs1
        · have := (ddb_mem key xs seen r hr).2
          exact absurd (hk ▸ hxseen) this
        · exact ddb_max key R xs hxs seen r hr s hs1 hk
      · simp only [drop_duplicates_by, if_neg hxseen, List.mem_cons] at hr
        rcases hr with rfl | hr
        · rcases List.mem_cons.1 hs with rfl | hs1
          · exact Or.inl rfl
          · exact Or.inr (hx s hs1)
        · have hmem := ddb_mem key xs (key x :: seen) r hr
          rcases List.mem_cons.1 hs with rfl | hs1
          · exact absurd (hk ▸ List.mem_cons_self (key s) seen) hmem.2
          · exact ddb_max key R xs hxs (key x :: seen) r hr s hs1 hk

theorem mem_foldl_append {α : Type} (contents : List (List α)) (init : List α) (x : α) :
    x ∈ contents.foldl (fun df c => df ++ c) init ↔ x ∈ init ∨ ∃ c ∈ contents, x ∈ c := by
  induction contents generalizing init with
  | nil => simp
  | cons c cs ih =>
      simp only [List.foldl_cons, ih, List.mem_append, List.mem_cons]
      constructor
      · rintro ((h | h) | ⟨d, hd, hx⟩)
        · exact Or.inl h
        · exact Or.inr ⟨c, Or.inl rfl, h⟩
        · exact Or.inr ⟨d, Or.inr hd, hx⟩
      · rintro (h | ⟨d, (rfl | hd), hx⟩)
        · exact Or.inl (Or.inl h)
        · exact Or.inl (Or.inr hx)
        · exact Or.inr ⟨d, hd, hx⟩

theorem mem_mergeLeft_matched (enr : List EnrRow) (tl : List EngRow) (e : EnrRow) (t : EngRow) :
    (e, some t) ∈ mergeLeft enr tl → e ∈ enr ∧ t ∈ tl ∧ matchKeys e t = true := by
  intro h
  simp only [mergeLeft, List.mem_flatMap] at h
  rcases h with ⟨e1, he1, hmem⟩
  by_cases hms : (tl.filter (fun t => matchKeys e1 t)).isEmpty
  · simp only [if_pos hms, List.mem_singleton, Prod.mk.injEq] at hmem
    exact absurd hmem.2 (by simp)
  · simp only [if_neg hms, List.mem_map, Prod.mk.injEq] at hmem
    rcases hmem with ⟨t1, ht1, he, ht⟩
    have ht1m := List.mem_filter.1 ht1
    cases Option.some.inj ht
    subst he
    exact ⟨he1, ht1m.1, ht1m.2⟩

theorem mem_process_timeline (enr : List EnrRow) (tl : List EngRow) (r : ProcRow) :
    r ∈ process_timeline enr tl →
      ∃ e ∈ enr, ∃ t ∈ tl, matchKeys e t = true ∧ t.eventType.isSome = true ∧
        r = stringifyRow (e, t) := by
  intro h
  simp only [process_timeline] at h
  rcases List.mem_map.1 h with ⟨p, hp, rfl⟩
  rw [mem_sortByLe] at hp
  rcases List.mem_filterMap.1 hp with ⟨q, hq, heq⟩
  obtain ⟨e, ot⟩ := q
  cases ot with
  | none => simp at heq
  | some t =>
      by_cases hev : t.eventType.isSome
      · simp only [if_pos hev, Option.some.injEq] at heq
        subst heq
        have hm := mem_mergeLeft_matched enr (tl.filter (fun t => t.studentId.isSome)) e t hq
        exact ⟨e, hm.1, t, (List.mem_filter.1 hm.2.1).1, hm.2.2, hev, rfl⟩
      · simp only [if_neg hev] at heq
        exact absurd heq (by simp)

theorem melt_length {α β γ : Type} (idsOf : α → β) (cntOf : α → String → γ)
    (vs : List String) (df : List α) :
    (melt idsOf cntOf vs df).length = vs.length * df.length := by
  induction vs with
  | nil => simp [melt]
  | cons v vs ih =>
      simp only [melt, List.flatMap_cons, List.length_append, List.length_map] at *
      rw [ih, List.length_cons, Nat.succ_mul, Nat.add_comm]

theorem melt_get {α β γ : Type} (idsOf : α → β) (cntOf : α → String → γ) :
    ∀ (vs : List String) (df : List α) (j i : Nat) (hj : j < vs.length) (hi : i < df.length),
      (melt idsOf cntOf vs df)[j * df.length + i]? =
        some (idsOf (df.get ⟨i, hi⟩), vs.get ⟨j, hj⟩, cntOf (df.get ⟨i, hi⟩) (vs.get ⟨j, hj⟩))
  | [], _, j, _, hj, _ => by simp at hj
  | v :: vs, df, 0, i, hj, hi => by
      simp only [melt, List.flatMap_cons, Nat.zero_mul, Nat.zero_add]
      rw [List.getElem?_append_left (by simpa using hi), List.getElem?_map,
        List.getElem?_eq_getElem hi]
      simp [List.get_eq_getElem]
  | v :: vs, df, j + 1, i, hj, hi => by
      simp only [melt, List.flatMap_cons]
      have hlen : (df.map (fun r => (idsOf r, v, cntOf r v))).length = df.length := by simp
      have hge : (df.map (fun r => (idsOf r, v, cntOf r v))).length ≤ (j + 1) * df.length + i := by
        rw [hlen, Nat.succ_mul]
        omega
      rw [List.getElem?_append_right hge, hlen]
      have hidx : (j + 1) * df.length + i - df.length = j * df.length + i := by
        rw [Nat.succ_mul]; omega
      rw [hidx]
      exact melt_get idsOf cntOf vs df j i (by simpa using hj) hi

theorem cldcSortLe_trans (a b c : CLDCRow) :
    cldcSortLe a b = true → cldcSortLe b c = true → cldcSortLe a c = true := by
  simp only [cldcSortLe, Bool.or_eq_true, Bool.and_eq_true, decide_eq_true_eq]
  rintro (h1 | ⟨h1e, h1d⟩) (h2 | ⟨h2e, h2d⟩)
  · exact Or.inl (pyLt_trans _ _ _ h2 h1)
  · exact Or.inl (h2e ▸ h1)
  · exact Or.inl (h1e.symm ▸ h2)
  · exact Or.inr ⟨h1e.trans h2e, pyLe_trans _ _ _ h2d h1d⟩

theorem cldcSortLe_total (a b : CLDCRow) :
    cldcSortLe a b = true ∨ cldcSortLe b a = true := by
  simp only [cldcSortLe, Bool.or_eq_true, Bool.and_eq_true, decide_eq_true_eq]
  rcases pyLt_or_eq a.email b.email with h | h | h
  · exact Or.inr (Or.inl h)
  · exact Or.inl (Or.inl h)
  · rcases pyLe_total a.date b.date with hd | hd
    · exact Or.inr (Or.inr ⟨h.symm, hd⟩)
    · exact Or.inl (Or.inr ⟨h, hd⟩)

theorem req_col_check_ok (cfg : ConfigMap) (rt : String) :
    ∀ cs : List String, (∀ c ∈ cs, c ∈ cfgKeys cfg) → req_col_check cfg rt cs = Except.ok ()
  | [], _ => rfl
  | c :: cs, h => by
      have hc : c ∈ cfgKeys cfg := h c (List.mem_cons_self _ _)
      simp only [req_col_check, if_pos hc]
      exact req_col_check_ok cfg rt cs (fun x hx => h x (List.mem_cons_of_mem _ hx))

theorem req_col_check_err (cfg : ConfigMap) (rt : String) :
    ∀ cs : List String, (∃ c ∈ cs, c ∉ cfgKeys cfg) →
      ∃ c ∈ cs, c ∉ cfgKeys cfg ∧
        req_col_check cfg rt cs =
          Except.error ("required column " ++ c ++ " missing from " ++ rt)
  | [], h => by simp at h
  | c :: cs, h => by
      by_cases hc : c ∈ cfgKeys cfg
      · have hcs : ∃ x ∈ cs, x ∉ cfgKeys cfg := by
          rcases h with ⟨x, hx, hxk⟩
          rcases List.mem_cons.1 hx with rfl | hx1
          · exact absurd hc hxk
          · exact ⟨x, hx1, hxk⟩
        rcases req_col_check_err cfg rt cs hcs with ⟨x, hx, hxk, hres⟩
        refine ⟨x, List.mem_cons_of_mem _ hx, hxk, ?_⟩
        simp only [req_col_check, if_pos hc]
        exact hres
      · refine ⟨c, List.mem_cons_self _ _, hc, ?_⟩
        simp only [req_col_check, if_neg hc]

/-! Claim theorems. -/

/-- C1: after `create_timeline` and `process_timeline`, the Timeline
object's timeline contains only engagement rows that matched a processed
enrollment record on student and term (the merge keys Student_ID, Year and
Term Code/Key), every retained row has a non-null Event_Type, and every
column of the resulting table is string-typed (each row is the
stringification of a matched enrollment/engagement pair, of type `ProcRow`
whose fields are all strings). -/
theorem timeline_only_matched_rows (enr : List EnrRow) (contents : List (List EngRow)) :
    ∀ r ∈ process_timeline enr (create_timeline contents),
      ∃ e ∈ enr, ∃ t : EngRow, (∃ c ∈ contents, t ∈ c) ∧
        t.studentId = some e.studentId ∧ engYear t = some e.year ∧
        engKey t = some e.termCode ∧ t.eventType.isSome = true ∧
        r = stringifyRow (e, t) := by
  intro r hr
  rcases mem_process_timeline enr (create_timeline contents) r hr with
    ⟨e, he, t, ht, hm, hev, hreq⟩
  simp only [create_timeline] at ht
  have hmem := (mem_foldl_append contents [] t).1 ht
  simp only [List.not_mem_nil, false_or] at hmem
  simp only [matchKeys, Bool.and_eq_true, decide_eq_true_eq] at hm
  exact ⟨e, he, t, hmem, hm.1.1, hm.1.2, hm.2, hev, hreq⟩

/-- Closed witness for C1: the sample engagement row of S1 survives
processing and is certified to come from a matching enrollment record. -/
theorem timeline_only_matched_rows_witness :
    ∃ e ∈ [enr1], ∃ t : EngRow, (∃ c ∈ [[eng1]], t ∈ c) ∧
      t.studentId = some e.studentId ∧ engYear t = some e.year ∧
      engKey t = some e.termCode ∧ t.eventType.isSome = true ∧
      stringifyRow (enr1, eng1) = stringifyRow (e, t) :=
  timeline_only_matched_rows [enr1] [[eng1]] (stringifyRow (enr1, eng1)) (by decide)

/-- C2: the semester key of an event month is 10 (Winter) for months 1-4,
30 (Summer) for months 5-8 and 40 (Fall) for months 9-12; enrollment term
codes 35, 5 and 25 are normalized to 40, 10 and 30 respectively, and every
row surviving `add_enrollment` carries a normalized Term Code among
40, 10, 30 (others are dropped). -/
theorem semester_key_and_term_normalization :
    (∀ m, 1 ≤ m → m ≤ 4 → monthKey m = some "10") ∧
    (∀ m, 5 ≤ m → m ≤ 8 → monthKey m = some "30") ∧
    (∀ m, 9 ≤ m → m ≤ 12 → monthKey m = some "40") ∧
    seasonalMapping "35" = "40" ∧ seasonalMapping "5" = "10" ∧
    seasonalMapping "25" = "30" ∧
    (∀ raw : List EnrRaw, ∀ r ∈ add_enrollment raw, r.termCode ∈ allowedTermCodes) := by
  refine ⟨?_, ?_, ?_, by decide, by decide, by decide, ?_⟩
  · intro m h1 h2; interval_cases m <;> rfl
  · intro m h1 h2; interval_cases m <;> rfl
  · intro m h1 h2; interval_cases m <;> rfl
  · intro raw r hr
    simp only [add_enrollment] at hr
    simpa using (List.mem_filter.1 hr).2

/-- Closed witness for C2: concrete months of each season and a concrete
enrollment row whose term code 35 normalizes into the allowed set. -/
theorem semester_key_and_term_normalization_witness :
    monthKey 2 = some "10" ∧ monthKey 6 = some "30" ∧ monthKey 11 = some "40" ∧
    enr2.termCode ∈ allowedTermCodes :=
  ⟨semester_key_and_term_normalization.1 2 (by decide) (by decide),
   semester_key_and_term_normalization.2.1 6 (by decide) (by decide),
   semester_key_and_term_normalization.2.2.1 11 (by decide) (by decide),
   semester_key_and_term_normalization.2.2.2.2.2.2 [raw1] enr2 (by decide)⟩

/-- C3: each derived report keeps only rows satisfying its time-ordering
rule: the CLDC report keeps merged rows only when the engagement date is
strictly after the appointment date, the COM1100 report only when the
engagement date is on or after the presentation date, and the FDS report
only when the engagement date is strictly before the FDS response date. -/
theorem time_ordering_filters :
    (∀ (appts : List ApptRow) (tl : List TLRow),
        ∀ r ∈ cldc_time_filter (cldc_merge appts tl),
          ∃ d, r.dateEng = some d ∧ pyLt r.dateAppt d = true) ∧
    (∀ (grp : List ComStuRow) (tl : List ComTLRow),
        ∀ r ∈ com1100_time_filter (com1100_merge grp tl),
          ∃ d, r.dateEng = some d ∧ pyLe r.datePrez d = true) ∧
    (∀ (fds : List FDSRow) (tl : List FDSTLRow),
        ∀ r ∈ fds_time_filter (fds_merge fds tl),
          ∃ d, r.dateTl = some d ∧ pyLt d (fmtYmd r.dateFds) = true) := by
  refine ⟨?_, ?_, ?_⟩
  · intro appts tl r hr
    have h := (List.mem_filter.1 hr).2
    cases hd : r.dateEng with
    | none => rw [hd] at h; exact absurd h (by simp [dateLtOpt])
    | some d =>
        rw [hd] at h
        exact ⟨d, rfl, by simpa [dateLtOpt] using h⟩
  · intro grp tl r hr
    have h := (List.mem_filter.1 hr).2
    cases hd : r.dateEng with
    | none => rw [hd] at h; exact absurd h (by simp [dateLeOpt])
    | some d =>
        rw [hd] at h
        exact ⟨d, rfl, by simpa [dateLeOpt] using h⟩
  · intro fds tl r hr
    have h := (List.mem_filter.1 hr).2
    cases hd : r.dateTl with
    | none => rw [hd] at h; exact absurd h (by simp)
    | some d =>
        rw [hd] at h
        exact ⟨d, rfl, by simpa using h⟩

/-- Closed witness for C3: one concrete surviving row of each of the
three filters, with its date ordering certified. -/
theorem time_ordering_filters_witness :
    (∃ d, m1.dateEng = some d ∧ pyLt m1.dateAppt d = true) ∧
    (∃ d, cm1.dateEng = some d ∧ pyLe cm1.datePrez d = true) ∧
    (∃ d, fm1.dateTl = some d ∧ pyLt d (fmtYmd fm1.dateFds) = true) :=
  ⟨time_ordering_filters.1 [appt1] [tlr1] m1 (by decide),
   time_ordering_filters.2.1 [stu1] [ctl1] cm1 (by decide),
   time_ordering_filters.2.2 [fds1] [ftl1] fm1 (by decide)⟩

/-- C4: in the CLDC report, after filtering to Completed == true rows,
the email-keyed deduplication keeps exactly one appointment row per email,
namely one with the greatest Date value among that email's completed
appointments (sort by Email and Date descending, drop duplicates keeping
first). -/
theorem cldc_dedup_keeps_latest (df : List CLDCRow) (e : String)
    (he : e ∈ (completedRows df).map (fun r => r.email)) :
    ((dedupAppointments df).filter (fun r => decide (r.email = e))).length = 1 ∧
    ∀ r ∈ dedupAppointments df, r.email = e →
      r.completed = "true" ∧ r ∈ completedRows df ∧
        ∀ s ∈ completedRows df, s.email = e → pyLe s.date r.date = true := by
  have hsorted :=
    pairwise_sortByLe cldcSortLe cldcSortLe_trans cldcSortLe_total (completedRows df)
  constructor
  · rcases List.mem_map.1 he with ⟨r0, hr0, hre⟩
    have hr0s : r0 ∈ sortByLe cldcSortLe (completedRows df) :=
      (mem_sortByLe cldcSortLe (completedRows df) r0).2 hr0
    rcases ddb_covers (fun r : CLDCRow => r.email)
        (sortByLe cldcSortLe (completedRows df)) [] r0 hr0s (by simp) with ⟨y, hy, hky⟩
    have hymem : y ∈ (dedupAppointments df).filter (fun r => decide (r.email = e)) := by
      refine List.mem_filter.2 ⟨hy, ?_⟩
      have : y.email = e := by rw [← hre]; exact hky
      simp [this]
    have hpos := List.length_pos_of_mem hymem
    have hle := ddb_filter_le_one (fun r : CLDCRow => r.email)
      (sortByLe cldcSortLe (completedRows df)) [] e
    exact Nat.le_antisymm hle hpos
  · intro r hr hre
    have hmem := ddb_mem (fun r : CLDCRow => r.email)
      (sortByLe cldcSortLe (completedRows df)) [] r hr
    have hrc : r ∈ completedRows df :=
      (mem_sortByLe cldcSortLe (completedRows df) r).1 hmem.1
    refine ⟨by simpa using (List.mem_filter.1 hrc).2, hrc, ?_⟩
    intro s hs hse
    have hss : s ∈ sortByLe cldcSortLe (completedRows df) :=
      (mem_sortByLe cldcSortLe (completedRows df) s).2 hs
    have hmax := ddb_max (fun r : CLDCRow => r.email) cldcSortLe
      (sortByLe cldcSortLe (completedRows df)) hsorted [] r hr s hss
      (by show s.email = r.email; rw [hse, hre])
    rcases hmax with rfl | hR
    · exact pyLe_refl _
    · simp only [cldcSortLe, Bool.or_eq_true, Bool.and_eq_true, decide_eq_true_eq] at hR
      rcases hR with h | ⟨_, h⟩
      · rw [hse, hre, pyLt_irrefl] at h
        exact absurd h (by simp)
      · exact h

/-- Closed witness for C4: on the sample sheet `df4`, email a@x keeps
exactly one completed appointment, carrying the maximal date value. -/
theorem cldc_dedup_keeps_latest_witness :
    ((dedupAppointments df4).filter (fun r => decide (r.email = "a@x"))).length = 1 ∧
    ∀ r ∈ dedupAppointments df4, r.email = "a@x" →
      r.completed = "true" ∧ r ∈ completedRows df4 ∧
        ∀ s ∈ completedRows df4, s.email = "a@x" → pyLe s.date r.date = true :=
  cldc_dedup_keeps_latest df4 "a@x" (by decide)

/-- C5: every email with at least one completed appointment appears in the
CLDC aggregate output: emails absent from the pivot are appended as rows
whose per-event-type counts are all 0, and pivot cells with no matching
engagement rows hold 0. -/
theorem cldc_aggregate_covers_completed (df : List CLDCRow) (tl : List TLRow) :
    (∀ e ∈ (completedRows df).map (fun r => r.email),
        ∃ r ∈ cldc_aggregate df tl, r.email = e ∧
          (r ∈ cldc_pivot (cldc_df_tl df tl) ∨ ∀ ev, r.cnt ev = 0)) ∧
    (∀ r ∈ cldc_pivot (cldc_df_tl df tl), ∀ ev : String,
        (∀ m ∈ cldc_df_tl df tl,
            ¬(m.email = r.email ∧ m.studentId = some r.studentId ∧
              m.eventType = some ev)) →
          r.cnt ev = 0) := by
  constructor
  · intro e he
    rcases List.mem_map.1 he with ⟨r0, hr0, hre⟩
    have hcodes : e ∈ all_codes df := by
      rcases ddb_covers id ((completedRows df).map (fun r => r.email)) [] e
          (List.mem_map.2 ⟨r0, hr0, hre⟩) (by simp) with ⟨y, hy, hky⟩
      have hye : y = e := hky
      exact hye ▸ hy
    by_cases hpim : e ∈ (cldc_pivot (cldc_df_tl df tl)).map AggRow.email
    · rcases List.mem_map.1 hpim with ⟨r, hrp, hremail⟩
      refine ⟨r, ?_, hremail, Or.inl hrp⟩
      simp only [cldc_aggregate]
      exact List.mem_append_left _ hrp
    · refine ⟨⟨e, "0", fun _ => 0⟩, ?_, rfl, Or.inr (fun ev => rfl)⟩
      simp only [cldc_aggregate]
      refine List.mem_append_right _ (List.mem_map.2 ⟨e, ?_, rfl⟩)
      exact List.mem_filter.2 ⟨hcodes, by simpa using hpim⟩
  · intro r hrp ev hnone
    rcases List.mem_map.1 hrp with ⟨p, hp, rfl⟩
    show pivot_count (cldc_df_tl df tl) p.1 p.2 ev = 0
    simp only [pivot_count, List.length_eq_zero]
    rw [List.filter_eq_nil_iff]
    intro m hm
    simp only [Bool.and_eq_true, decide_eq_true_eq, not_and]
    intro h1 h2
    exact hnone m hm ⟨h1.1, h1.2, h2⟩

/-- Closed witness for C5: on the sample sheet `df5` with an empty
timeline, the completed email a@x still appears in the aggregate, with
all counts 0. -/
theorem cldc_aggregate_covers_completed_witness :
    ∃ r ∈ cldc_aggregate df5 ([] : List TLRow), r.email = "a@x" ∧
      (r ∈ cldc_pivot (cldc_df_tl df5 ([] : List TLRow)) ∨ ∀ ev, r.cnt ev = 0) :=
  (cldc_aggregate_covers_completed df5 ([] : List TLRow)).1 "a@x" (by decide)

/-- C6: for the CLDC and COM1100 reports, the melted output is the melt of
the aggregate over exactly the five event-type columns Applications,
Appointments, Career_Fairs, Events, Logins: for every aggregate row and
each of the five event types, the melted output holds exactly one row (at
the corresponding position of its value-column block) with that row's
identifier columns, that Event_Type and Count equal to the aggregate
cell, and its length is five times the aggregate length. -/
theorem melted_is_melt_of_aggregate (aggC : List AggRow) (aggM : List ComAggRow)
    (i1 : Fin aggC.length) (j1 : Fin event_cols.length)
    (i2 : Fin aggM.length) (j2 : Fin event_cols.length) :
    (cldc_melt aggC).length = event_cols.length * aggC.length ∧
    (cldc_melt aggC)[j1.1 * aggC.length + i1.1]? =
      some (((aggC.get i1).studentId, (aggC.get i1).email), event_cols.get j1,
        (aggC.get i1).cnt (event_cols.get j1)) ∧
    (com1100_melt aggM).length = event_cols.length * aggM.length ∧
    (com1100_melt aggM)[j2.1 * aggM.length + i2.1]? =
      some (((aggM.get i2).studentId, (aggM.get i2).collegeProgram,
          (aggM.get i2).collegeMajor, (aggM.get i2).termCodeKey),
        event_cols.get j2, (aggM.get i2).cnt (event_cols.get j2)) :=
  ⟨melt_length _ _ event_cols aggC,
   melt_get _ _ event_cols aggC j1.1 i1.1 j1.2 i1.2,
   melt_length _ _ event_cols aggM,
   melt_get _ _ event_cols aggM j2.1 i2.1 j2.2 i2.2⟩

/-- Closed witness for C6: melting the one-row sample aggregates puts the
Logins count of `agg6` (block 4) and the Career_Fairs count of `cagg6`
(block 2) at the expected positions. -/
theorem melted_is_melt_of_aggregate_witness :
    (cldc_melt [agg6]).length = event_cols.length * 1 ∧
    (cldc_melt [agg6])[4 * 1 + 0]? =
      some ((agg6.studentId, agg6.email), "Logins", agg6.cnt "Logins") ∧
    (com1100_melt [cagg6]).length = event_cols.length * 1 ∧
    (com1100_melt [cagg6])[2 * 1 + 0]? =
      some ((cagg6.studentId, cagg6.collegeProgram, cagg6.collegeMajor,
        cagg6.termCodeKey), "Career_Fairs", cagg6.cnt "Career_Fairs") :=
  melted_is_melt_of_aggregate [agg6] [cagg6]
    ⟨0, by decide⟩ ⟨4, by decide⟩ ⟨0, by decide⟩ ⟨2, by decide⟩

/-- C7 counterexample: Report construction does not inspect the loaded
table at all.  With a config carrying all four required keys, construction
succeeds on a table that has neither an Email nor a Student_ID column, so
the required columns are not validated against the loaded table. -/
theorem report_init_ignores_table_columns :
    reportInit cfg7 "CLDC_Report" (some tbl7) =
      Except.ok (some (rename_columns cfg7 tbl7)) ∧
    "Email" ∉ tbl7.cols.map Column.name ∧
    "Student_ID" ∉ tbl7.cols.map Column.name :=
  ⟨rfl, by decide, by decide⟩

/-- C7 (amended): constructing a Report validates that the required
columns Student_ID, Date, path and Email exist among the keys of the
config mapping for that report type (not among the loaded table's
columns), raising an error naming a missing column when one is absent,
and on success renames the table's columns per the config mapping. -/
theorem report_init_validates_config_keys (cfg : ConfigMap) (rt : String)
    (loaded : Option Table) :
    ((∀ c ∈ reqCols, c ∈ cfgKeys cfg) →
        reportInit cfg rt loaded = Except.ok (loaded.map (rename_columns cfg))) ∧
    ((∃ c ∈ reqCols, c ∉ cfgKeys cfg) →
        ∃ c ∈ reqCols, c ∉ cfgKeys cfg ∧
          reportInit cfg rt loaded =
            Except.error ("required column " ++ c ++ " missing from " ++ rt)) := by
  constructor
  · intro h
    simp only [reportInit, req_col_check_ok cfg rt reqCols h]
  · intro h
    rcases req_col_check_err cfg rt reqCols h with ⟨c, hc, hck, hres⟩
    exact ⟨c, hc, hck, by simp only [reportInit, hres]⟩

/-- Closed witness for C7 (amended): with all keys present construction
succeeds and renames; with keys missing it raises, naming the column. -/
theorem report_init_validates_config_keys_witness :
    reportInit cfg7 "CLDC_Report" (some tbl7) =
      Except.ok (some (rename_columns cfg7 tbl7)) ∧
    ∃ c ∈ reqCols, c ∉ cfgKeys cfg9bad ∧
      reportInit cfg9bad "FDS" (some tbl7) =
        Except.error ("required column " ++ c ++ " missing from " ++ "FDS") :=
  ⟨(report_init_validates_config_keys cfg7 "CLDC_Report" (some tbl7)).1 (by decide),
   (report_init_validates_config_keys cfg9bad "FDS" (some tbl7)).2 (by decide)⟩

/-- C8: the loader resolves the latest matching file as the maximum of the
matching paths under descending sorted order, and resolves to None when no
file matches the pattern. -/
theorem latest_file_is_max_or_none (files : List String) :
    (files = [] → get_latest_file_path files = none) ∧
    (files ≠ [] → ∃ m, get_latest_file_path files = some m ∧ m ∈ files ∧
        ∀ x ∈ files, pyLe x m = true) := by
  constructor
  · rintro rfl; rfl
  · intro hne
    cases hs : sortByLe (fun a b => pyLe b a) files with
    | nil =>
        exfalso
        rcases List.exists_mem_of_ne_nil files hne with ⟨x, hx⟩
        have hxs := (mem_sortByLe (fun a b => pyLe b a) files x).2 hx
        rw [hs] at hxs
        simp at hxs
    | cons m rest =>
        refine ⟨m, ?_, ?_, ?_⟩
        · simp [get_latest_file_path, hs]
        · have hm : m ∈ sortByLe (fun a b => pyLe b a) files := by
            rw [hs]; exact List.mem_cons_self _ _
          exact (mem_sortByLe _ files m).1 hm
        · intro x hx
          have hxs := (mem_sortByLe (fun a b => pyLe b a) files x).2 hx
          rw [hs] at hxs
          rcases List.mem_cons.1 hxs with rfl | hxr
          · exact pyLe_refl x
          · have hp := pairwise_sortByLe (fun a b => pyLe b a)
              (fun a b c h1 h2 => pyLe_trans c b a h2 h1)
              (fun a b => pyLe_total b a) files
            rw [hs] at hp
            exact (List.pairwise_cons.1 hp).1 x hxr

/-- Closed witness for C8: no match yields None, and of two dated report
paths the later one is resolved as the maximum. -/
theorem latest_file_is_max_or_none_witness :
    get_latest_file_path [] = none ∧
    ∃ m, get_latest_file_path ["report_20240101.csv", "report_20240301.csv"] = some m ∧
      m ∈ ["report_20240101.csv", "report_20240301.csv"] ∧
      ∀ x ∈ ["report_20240101.csv", "report_20240301.csv"], pyLe x m = true :=
  ⟨(latest_file_is_max_or_none []).1 rfl,
   (latest_file_is_max_or_none ["report_20240101.csv", "report_20240301.csv"]).2
     (by decide)⟩

/-- C9: when the path pattern matches no file or the CSV cannot be read,
`_load_file` catches the failure and returns None; construction then
completes without raising (the config-side required-column check passing)
and the Report's content is None, the rename attempts on None being
swallowed silently. -/
theorem failed_load_yields_none_content (cfg : ConfigMap) (rt : String)
    (h : ∀ c ∈ reqCols, c ∈ cfgKeys cfg) :
    reportInit cfg rt none = Except.ok none := by
  simp only [reportInit, req_col_check_ok cfg rt reqCols h]
  rfl

/-- Closed witness for C9: with the sample config, a failed load still
constructs a Report whose content is None. -/
theorem failed_load_yields_none_content_witness :
    reportInit cfg7 "Applications" none = Except.ok none :=
  failed_load_yields_none_content cfg7 "Applications" (by decide)

/-- C10 counterexample: renames are applied sequentially, so with the
chain config (B renames A, then C renames B) a table whose only column is
A ends with that column named C: no column bearing the key B of the first
entry remains, although the entry has a col_name field and a column named
A existed. -/
theorem rename_columns_chained_counterexample :
    rename_columns cfg10 tbl10 = ⟨[⟨"C", ["v1", "v2"]⟩]⟩ ∧
    "B" ∉ (rename_columns cfg10 tbl10).cols.map Column.name :=
  ⟨rfl, by decide⟩

/-- C10 (amended): rename_columns is total (every per-entry failure is
swallowed) and processes the config entries sequentially, in order: each
entry having a col_name renames every column currently bearing that name
to the entry's key (so a later entry can rename the result of an earlier
one), entries without a col_name are skipped silently, and the column
count and every cell value are unchanged: each output column is the input
column with the entry renamings folded over its name. -/
theorem rename_columns_sequential_spec (cfg : ConfigMap) (t : Table) :
    (rename_columns cfg t).cols =
      t.cols.map (fun c => ⟨applyRenames cfg c.name, c.cells⟩) := by
  induction cfg generalizing t with
  | nil =>
      show t.cols = t.cols.map (fun c => ⟨applyRenames [] c.name, c.cells⟩)
      have hid : (fun c : Column => (⟨applyRenames [] c.name, c.cells⟩ : Column)) =
          fun c => c := by
        funext c; rfl
      rw [hid, List.map_id']
  | cons e cfg ih =>
      have h1 : rename_columns (e :: cfg) t =
          rename_columns cfg ⟨t.cols.map (fun c => ⟨renameStep e c.name, c.cells⟩)⟩ := rfl
      rw [h1, ih]
      simp only [List.map_map]
      rfl

end TimelineReports
